import Mathlib

/-!
hubic-backup: the synchronisation pipeline of `main.cpp` and `loadExcludes` of `options.cpp`.

A shallow embedding of the stages of `src/main.cpp` (parser hooks, local and remote digest
workers, the synchroniser's `getNext` / `run`, and `main`) and of `loadExcludes` from
`src/options.cpp`, followed by theorems about them.

Conventions of the embedding:

* an asset pointer `CAsset *` is represented by the value of the asset it points to; a queue is the
  list of its elements, front first;
* `assert(e)` is kept: every function that contains one takes `asserts : Bool`, which is `true`
  for a build with assertions enabled and `false` for a build with `NDEBUG`; a failed assertion
  is the outcome `Result.assertFailed`;
* collaborators that are not part of `main.cpp` (the uploader, the HTTP request, the MD5 routine)
  are parameters.
-/

namespace HubicBackup

/-! ## Data model -/

/-- Digest value `NMD5::CDigest`: the 16 bytes of an MD5. -/
structure CDigest where
  bytes : List Nat
  deriving DecidableEq, Repr

/-- Modelled from the spec: the digest record `CHash` (its declaration is not in `main.cpp`):
a 16-byte MD5, a 64-bit length and the `computed` boolean. -/
structure CHash where
  _md5 : CDigest
  _len : Int
  _computed : Bool
  deriving DecidableEq, Repr

/-- Modelled from the spec: `CHash::operator==` (declared outside `main.cpp`): two digests are
equal when both are computed and both MD5 and length match. -/
def CHash.beq (a b : CHash) : Bool :=
  a._computed && b._computed && decide (a._md5 = b._md5) && decide (a._len = b._len)

/-- Modelled from the spec: the asset `CAsset` (declared outside `main.cpp`): relative path, kind,
number of children, source digest, destination digest, encrypted-at-destination flag. -/
structure CAsset where
  fullPath : String
  relativePath : String
  folder : Bool
  children : Nat
  srcHash : CHash
  dstHash : CHash
  crypted : Bool
  deriving DecidableEq, Repr

/-- Accessor `p->isFolder()`. -/
def CAsset.isFolder (p : CAsset) : Bool := p.folder

/-- Accessor `p->childCount()`. -/
def CAsset.childCount (p : CAsset) : Nat := p.children

/-- Accessor `p->getFullPath().string()`. -/
def CAsset.getFullPath (p : CAsset) : String := p.fullPath

/-- Accessor `p->getRelativePath()`. -/
def CAsset.getRelativePath (p : CAsset) : String := p.relativePath

/-- Accessor `p->getSrcHash()`. -/
def CAsset.getSrcHash (p : CAsset) : CHash := p.srcHash

/-- Accessor `p->getDstHash()`. -/
def CAsset.getDstHash (p : CAsset) : CHash := p.dstHash

/-- Mutator `p->setSrcHash(h)`. -/
def CAsset.setSrcHash (p : CAsset) (h : CHash) : CAsset := { p with srcHash := h }

/-- Mutator `p->setDstHash(h)`. -/
def CAsset.setDstHash (p : CAsset) (h : CHash) : CAsset := { p with dstHash := h }

/-- Mutator `p->setCrypted(b)`. -/
def CAsset.setCrypted (p : CAsset) (b : Bool) : CAsset := { p with crypted := b }

/-- Modelled from the spec: the remote listing `CRemoteLs` (declared outside `main.cpp`): the set
of object names found under the destination prefix. -/
structure CRemoteLs where
  names : List String
  deriving Repr

/-- Modelled from the spec: `CRemoteLs::exists(relative_path)`, the lookup in the listed names. -/
def CRemoteLs.existsPath (ls : CRemoteLs) (path : String) : Bool := decide (path ∈ ls.names)

/-- Outcome of code that contains `assert`: a value, or the failed assertion. -/
inductive Result (α : Type) where
  | ok (a : α)
  | assertFailed
  deriving DecidableEq, Repr

/-! ## `CSynchronizer::getNext` -/

/-- What one call of `getNext` leaves behind: the returned pointer (`none` is `nullptr`), the
local-done queue after the call, and the value of the out-parameter `remoteExists`. -/
structure GetNextResult where
  asset : Option CAsset
  queue : List CAsset
  remoteExists : Bool
  deriving DecidableEq, Repr

/-- The `for` loop of `getNext` (main.cpp 281-311) from the current iterator position on;
`remoteExists` is the value the out-parameter holds when the position is reached. An element
the loop steps over stays in the queue, in front of what follows. -/
def getNextLoop (asserts : Bool) (ls : CRemoteLs) (remoteExists : Bool) :
    List CAsset → Result GetNextResult
  | [] => .ok ⟨none, [], remoteExists⟩
  | p :: rest =>
    if p.isFolder then
      .ok ⟨some p, rest, remoteExists⟩
    else if asserts && !p.getSrcHash._computed then
      .assertFailed
    else
      let remoteExists1 := ls.existsPath p.getRelativePath
      if !remoteExists1 then
        .ok ⟨some p, rest, remoteExists1⟩
      else if p.getDstHash._computed then
        .ok ⟨some p, rest, remoteExists1⟩
      else
        match getNextLoop asserts ls remoteExists1 rest with
        | .ok r => .ok ⟨r.asset, p :: r.queue, r.remoteExists⟩
        | .assertFailed => .assertFailed

/-- The function `CSynchronizer::getNext` (main.cpp 275-315) on the content `local` of the
local-done queue: `remoteExists = false`, then the scan. -/
def getNext (asserts : Bool) (ls : CRemoteLs) (localQ : List CAsset) : Result GetNextResult :=
  getNextLoop asserts ls false localQ

/-- Eligibility as the specification words it: a folder, or a file whose relative path is absent
from the listing, or a file present in the listing whose destination digest is computed. -/
def eligible (ls : CRemoteLs) (p : CAsset) : Bool :=
  p.folder || !ls.existsPath p.relativePath || p.dstHash._computed

/-! ## Queues and context -/

/-- Modelled from the spec: the queue `CTQueue<CAsset>` (declared outside `main.cpp`): a FIFO of
asset references, front first, with its `done` flag. -/
structure CTQueue where
  items : List CAsset
  doneFlag : Bool
  deriving DecidableEq, Repr

/-- Modelled from the spec: `CTQueue::add`, enqueue at the back. -/
def CTQueue.add (q : CTQueue) (p : CAsset) : CTQueue := { q with items := q.items ++ [p] }

/-- Modelled from the spec: `CTQueue::setDone`. -/
def CTQueue.setDone (q : CTQueue) : CTQueue := { q with doneFlag := true }

/-- Modelled from the spec: `CTQueue::resetDone`. -/
def CTQueue.resetDone (q : CTQueue) : CTQueue := { q with doneFlag := false }

/-- Modelled from the spec: `CTQueue::done`. -/
def CTQueue.done (q : CTQueue) : Bool := q.doneFlag

/-- Modelled from the spec: `CTQueue::isEmpty`. -/
def CTQueue.isEmpty (q : CTQueue) : Bool := q.items.isEmpty

/-- Modelled from the spec: the context `CContext` (declared outside `main.cpp`): the four queues
and the abort flag. -/
structure CContext where
  _localMd5Queue : CTQueue
  _localMd5DoneQueue : CTQueue
  _remoteMd5Queue : CTQueue
  _remoteMd5DoneQueue : CTQueue
  abortFlag : Bool
  deriving DecidableEq, Repr

/-- Modelled from the spec: `CContext::abort`, which sets the abort flag. -/
def CContext.abort (ctx : CContext) : CContext := { ctx with abortFlag := true }

/-- Modelled from the spec: `CContext::aborted`. -/
def CContext.aborted (ctx : CContext) : Bool := ctx.abortFlag

/-- A context with four empty queues, none done, not aborted. -/
def CContext.initial : CContext :=
  ⟨⟨[], false⟩, ⟨[], false⟩, ⟨[], false⟩, ⟨[], false⟩, false⟩

/-! ## Parser hooks (main.cpp 83-101) -/

/-- The hook `CMySourceParser::onStart`. -/
def onStart (ctx : CContext) : CContext :=
  let ctx1 := { ctx with _localMd5Queue := ctx._localMd5Queue.resetDone }
  { ctx1 with _remoteMd5Queue := ctx1._remoteMd5Queue.resetDone }

/-- The hook `CMySourceParser::onNewAsset`. -/
def onNewAsset (ctx : CContext) (p : CAsset) : CContext :=
  let ctx1 := { ctx with _localMd5Queue := ctx._localMd5Queue.add p }
  { ctx1 with _remoteMd5Queue := ctx1._remoteMd5Queue.add p }

/-- The hook `CMySourceParser::onDone`. -/
def onDone (ctx : CContext) : CContext :=
  let ctx1 := { ctx with _localMd5Queue := ctx._localMd5Queue.setDone }
  { ctx1 with _remoteMd5Queue := ctx1._remoteMd5Queue.setDone }

/-- Modelled from the spec: the driver `CSourceParser::parse` (declared outside `main.cpp`), as far
as the hooks go: `onStart`, then `onNewAsset` once per reported asset, in order, then `onDone`. -/
def parse (ctx : CContext) (assets : List CAsset) : CContext :=
  onDone (assets.foldl onNewAsset (onStart ctx))

/-! ## `CLocalMd5Process::process` (main.cpp 143-154) -/

/-- What a call `NMD5::computeFileMd5(h._md5, path, &h._len)` leaves: its return value and the
content of its two out-parameters. -/
structure Md5Outcome where
  ok : Bool
  md5 : CDigest
  len : Int
  deriving DecidableEq, Repr

/-- The function `CLocalMd5Process::process`: the returned `bool` and the asset afterwards. -/
def CLocalMd5Process.process (computeFileMd5 : String → Md5Outcome) (p : CAsset) :
    Bool × CAsset :=
  let bRes := true
  if !p.isFolder then
    let r := computeFileMd5 p.getFullPath
    let h : CHash := { _md5 := r.md5, _len := r.len, _computed := r.ok }
    (bRes, p.setSrcHash h)
  else
    (bRes, p)

/-! ## `CRemoteMd5Process::process` (main.cpp 182-222) -/

/-- Modelled from the spec: the constant `metaUncryptedMd5` (defined outside `main.cpp`). -/
def metaUncryptedMd5 : String := "X-Object-Meta-Uncrypted-Md5"

/-- Modelled from the spec: the constant `metaUncryptedLen` (defined outside `main.cpp`). -/
def metaUncryptedLen : String := "X-Object-Meta-Uncrypted-Len"

/-- What the request object answers after `rq.head(url)`: `getHttpResponseCode()` and
`getResponseHeaderField(name)`. -/
structure CRequest where
  getHttpResponseCode : Nat
  getResponseHeaderField : String → String

/-- The collaborators of the remote digest worker: the digest parser `NMD5::CDigest::fromString`,
the C library's `atoll`, and the answer of the server to the HEAD request issued for a relative
path (the URL is built from the run's fixed endpoint, container and folder, and that path). -/
structure RemoteEnv where
  fromString : String → CDigest
  atoll : String → Int
  head : String → CRequest

/-- The function `CRemoteMd5Process::process`: the returned `bool` and the asset afterwards. -/
def CRemoteMd5Process.process (env : RemoteEnv) (ls : CRemoteLs) (p : CAsset) : Bool × CAsset :=
  if p.childCount = 0 then
    if ls.existsPath p.getRelativePath then
      let rq := env.head p.getRelativePath
      if rq.getHttpResponseCode = 200 then
        let uncryptedMd5 := rq.getResponseHeaderField metaUncryptedMd5
        let h : CHash :=
          if uncryptedMd5 = "" then
            { _md5 := env.fromString (rq.getResponseHeaderField "Etag")
              _len := env.atoll (rq.getResponseHeaderField "Content-Length")
              _computed := true }
          else
            { _md5 := env.fromString uncryptedMd5
              _len := env.atoll (rq.getResponseHeaderField metaUncryptedLen)
              _computed := true }
        (true, (p.setDstHash h).setCrypted (!decide (uncryptedMd5 = "")))
      else
        (false, p)
    else
      (true, p)
  else
    (true, p)

/-! ## `CSynchronizer::run` (main.cpp 317-364) -/

/-- The four `LOGD` lines of `run`, which name the class an asset falls in. -/
inductive Action where
  | ignoreFolder
  | upload
  | skip
  | replace
  deriving DecidableEq, Repr

/-- State a synchroniser worker acts on: the context, the calls `uploader.upload(p)` made so far
(oldest first) and the classes logged so far (oldest first). -/
structure SyncState where
  ctx : CContext
  uploads : List CAsset
  log : List (Action × CAsset)
  deriving DecidableEq, Repr

/-- Statement `if (!uploader.upload(p)) _ctx.abort();` after the `LOGD` line of class `a`. -/
def uploadOrAbort (upload : CAsset → Bool) (a : Action) (p : CAsset) (st : SyncState) :
    SyncState :=
  let st1 := { st with log := st.log ++ [(a, p)], uploads := st.uploads ++ [p] }
  if !upload p then { st1 with ctx := st1.ctx.abort } else st1

/-- The `if (p) ...` block of `run` for a non-null `p` (main.cpp 328-356). -/
def runDecide (asserts : Bool) (upload : CAsset → Bool) (p : CAsset) (remoteExists : Bool)
    (st : SyncState) : Result SyncState :=
  if p.isFolder then
    .ok { st with log := st.log ++ [(.ignoreFolder, p)] }
  else if !remoteExists then
    .ok (uploadOrAbort upload .upload p st)
  else
    let localH := p.getSrcHash
    let remoteH := p.getDstHash
    if asserts && !(remoteH._computed && localH._computed) then
      .assertFailed
    else if localH.beq remoteH then
      .ok { st with log := st.log ++ [(.skip, p)] }
    else
      .ok (uploadOrAbort upload .replace p st)

/-- The state after `getNext` returned: the local-done queue holds what `getNext` left in it. -/
def afterGetNext (st : SyncState) (r : GetNextResult) : SyncState :=
  { st with ctx := { st.ctx with
      _localMd5DoneQueue := { st.ctx._localMd5DoneQueue with items := r.queue } } }

/-- One pass through the body of the `while` of `run` up to the sleep (main.cpp 326-358):
`getNext` on the local-done queue, then the decision. -/
def runBody (asserts : Bool) (ls : CRemoteLs) (upload : CAsset → Bool) (st : SyncState) :
    Result SyncState :=
  match getNext asserts ls st.ctx._localMd5DoneQueue.items with
  | .assertFailed => .assertFailed
  | .ok r =>
    match r.asset with
    | none => .ok (afterGetNext st r)
    | some p => runDecide asserts upload p r.remoteExists (afterGetNext st r)

/-- How far a worker got. -/
inductive RunOutcome where
  | exited (st : SyncState)
  | running (st : SyncState)
  | assertFailed
  deriving DecidableEq, Repr

/-- The `while` loop of `run`, for at most `fuel` iterations: `exited` when the loop condition
`(!localMd5Done.isEmpty()) || (!localMd5Done.done())` is false or the `break` on
`_ctx.aborted()` is taken, `running` when the worker is still in the loop after `fuel`
iterations. -/
def run (asserts : Bool) (ls : CRemoteLs) (upload : CAsset → Bool) :
    Nat → SyncState → RunOutcome
  | 0, st =>
    if (!st.ctx._localMd5DoneQueue.isEmpty) || (!st.ctx._localMd5DoneQueue.done) then
      .running st
    else
      .exited st
  | fuel + 1, st =>
    if (!st.ctx._localMd5DoneQueue.isEmpty) || (!st.ctx._localMd5DoneQueue.done) then
      match runBody asserts ls upload st with
      | .assertFailed => .assertFailed
      | .ok st1 => if st1.ctx.aborted then .exited st1 else run asserts ls upload fuel st1
    else
      .exited st

/-! ## `main` (main.cpp 368-397) -/

/-- The record `COptions` (options.cpp 17-28), without `_argc` and `_argv`. -/
structure COptions where
  _hubicLogin : String
  _hubicPassword : String
  _srcFolder : String
  _excludes : List String
  _dstContainer : String
  _dstFolder : String
  _cryptPassword : String
  deriving DecidableEq, Repr

/-- The C library's `EXIT_SUCCESS`. -/
def EXIT_SUCCESS : Int := 0

/-- The C library's `EXIT_FAILURE`. -/
def EXIT_FAILURE : Int := 1

/-- What starting the five stages and joining them (main.cpp 383-394) comes to: all threads are
joined and leave a context, or some thread never leaves its loop, or an assertion fails. -/
inductive StagesOutcome where
  | joined (ctx : CContext)
  | notJoined
  | assertFailed
  deriving DecidableEq, Repr

/-- What a call of `main` comes to: it returns a code and leaves a context, or it does not return,
or an assertion fails. -/
inductive MainOutcome where
  | returned (code : Int) (ctx : CContext)
  | noReturn
  | assertFailed
  deriving DecidableEq, Repr

/-- The function `main`: `options` is `context._options` after the construction of the context
(`none` is `nullptr`), `getCredentials` is the value of `context.getCredentials()`, `stages` is
the effect of lines 383-394 on the context. -/
def main (options : Option COptions) (getCredentials : Bool)
    (stages : CContext → StagesOutcome) (context : CContext) : MainOutcome :=
  if options.isNone then
    .returned EXIT_FAILURE context
  else if !getCredentials then
    .returned EXIT_FAILURE context
  else
    match stages context with
    | .joined ctx => .returned EXIT_SUCCESS ctx
    | .notJoined => .noReturn
    | .assertFailed => .assertFailed

/-- The synchroniser as a stage: one worker runs `run` on the context, for at most `fuel`
iterations. -/
def synchronizerStage (asserts : Bool) (ls : CRemoteLs) (upload : CAsset → Bool) (fuel : Nat)
    (ctx : CContext) : StagesOutcome :=
  match run asserts ls upload fuel ⟨ctx, [], []⟩ with
  | .exited st => .joined st.ctx
  | .running _ => .notJoined
  | .assertFailed => .assertFailed

/-- Some parsed options. -/
def sampleOptions : COptions := ⟨"me", "secret", "/src", [], "default", "backup", ""⟩

/-! ## `loadExcludes` (options.cpp 174-192) -/

/-- The line delimiter of `getline`. -/
def newline : Char := Char.ofNat 10

/-- The character class `std::isspace` of the classic locale, which `boost::trim_copy` uses:
space, and the five controls from horizontal tab to carriage return. -/
def isspace (c : Char) : Bool := c.toNat = 32 || (9 ≤ c.toNat && c.toNat ≤ 13)

/-- The function `boost::trim_copy`: the text without its leading and trailing white space. -/
def trim_copy (s : List Char) : List Char := (s.rdropWhile isspace).dropWhile isspace

/-- The call `getline(f, line)` on what is left of the stream: `none` when nothing is left (the
call fails and the loop ends), else the characters up to the next delimiter or the end, and what is
left of the stream behind the delimiter. -/
def getline : List Char → Option (List Char × List Char)
  | [] => none
  | c :: cs =>
    some ((c :: cs).takeWhile (fun d => d != newline),
      ((c :: cs).dropWhile (fun d => d != newline)).drop 1)

/-- The `while (getline(f, line))` loop of `loadExcludes` (options.cpp 185-189), for at most
`fuel` calls of `getline`. -/
def loadExcludesLoop : Nat → Finset (List Char) → List Char → Finset (List Char)
  | 0, x, _ => x
  | fuel + 1, x, f =>
    match getline f with
    | none => x
    | some (line, rest) =>
      let line1 := trim_copy line
      if line1.isEmpty then loadExcludesLoop fuel x rest
      else loadExcludesLoop fuel (insert line1 x) rest

/-- The three `std::logic_error` exceptions `loadExcludes` throws. -/
inductive LoadError where
  | pathDoesNotExist
  | openFailed
  | readFailed
  deriving DecidableEq, Repr

/-- What `loadExcludes` finds at the path: nothing, a file it cannot open, or a file it opens, with
the content it reads and whether the stream ends up `bad()`. -/
inductive ExcludeFile where
  | missing
  | unopenable
  | opened (content : List Char) (bad : Bool)
  deriving DecidableEq, Repr

/-- The function `loadExcludes` (options.cpp 174-192) on the set `x`. Every successful `getline`
consumes at least one character, so one call more than the content has characters ends the
loop. -/
def loadExcludes (x : Finset (List Char)) (ePath : ExcludeFile) :
    Except LoadError (Finset (List Char)) :=
  match ePath with
  | .missing => .error .pathDoesNotExist
  | .unopenable => .error .openFailed
  | .opened content bad =>
    let x1 := loadExcludesLoop (content.length + 1) x content
    if bad then .error .readFailed else .ok x1

/-- The lines of a file as the specification words them: the pieces of the content between
delimiters. -/
def specLines (content : List Char) : List (List Char) := content.splitOn newline

/-- The set the specification describes: `{ trim(l) : l is a line of the file and trim(l) is not
empty }`. -/
def specAdded (content : List Char) : Finset (List Char) :=
  (((specLines content).map trim_copy).filter (fun e => e ≠ [])).toFinset

/-! ## Sample data -/

/-- A computed digest record with the given MD5 bytes and length. -/
def computedHash (bytes : List Nat) (len : Int) : CHash := ⟨⟨bytes⟩, len, true⟩

/-- A digest record that is not computed. -/
def notComputedHash : CHash := ⟨⟨[]⟩, 0, false⟩

/-- A listing that holds `b.txt`, `c.txt` and `d.txt`. -/
def sampleLs : CRemoteLs := ⟨["b.txt", "c.txt", "d.txt"]⟩

/-- A file that is absent from `sampleLs`; source digest computed. -/
def fileA : CAsset :=
  ⟨"/src/a.txt", "a.txt", false, 0, computedHash [1] 100, notComputedHash, false⟩

/-- A file present in `sampleLs` whose destination digest is not computed. -/
def fileB : CAsset :=
  ⟨"/src/b.txt", "b.txt", false, 0, computedHash [2] 200, notComputedHash, false⟩

/-- A file present in `sampleLs` whose destination digest equals its source digest. -/
def fileC : CAsset :=
  ⟨"/src/c.txt", "c.txt", false, 0, computedHash [3] 300, computedHash [3] 300, false⟩

/-- A file present in `sampleLs` whose destination digest differs from its source digest. -/
def fileD : CAsset :=
  ⟨"/src/d.txt", "d.txt", false, 0, computedHash [4] 400, computedHash [5] 400, false⟩

/-- A folder with one child. -/
def folderE : CAsset :=
  ⟨"/src/e", "e", true, 1, notComputedHash, notComputedHash, false⟩

/-- A synchroniser state whose local-done queue holds `q` with the given done flag; nothing
uploaded or logged yet, not aborted. -/
def syncStart (q : List CAsset) (done : Bool) : SyncState :=
  ⟨{ CContext.initial with _localMd5DoneQueue := ⟨q, done⟩ }, [], []⟩

/-- A file absent from `sampleLs` whose source digest is not computed. -/
def fileF : CAsset :=
  ⟨"/src/f.txt", "f.txt", false, 0, notComputedHash, notComputedHash, false⟩

/-- A file present in `sampleLs` whose source and destination digests are not computed. -/
def fileG : CAsset :=
  ⟨"/src/c.txt", "c.txt", false, 0, notComputedHash, notComputedHash, false⟩

/-- A server that answers every HEAD request with code 500 and no header. -/
def env500 : RemoteEnv := ⟨fun _ => ⟨[]⟩, fun _ => 0, fun _ => ⟨500, fun _ => ""⟩⟩

/-- A digest parser for the samples: the code points of the text. -/
def sampleFromString (t : String) : CDigest := ⟨t.toList.map Char.toNat⟩

/-- A length parser for the samples: the number of characters of the text. -/
def sampleAtoll (t : String) : Int := t.length

/-- A server that answers code 200 with the headers of a plaintext object. -/
def envPlain : RemoteEnv :=
  ⟨sampleFromString, sampleAtoll, fun _ =>
    ⟨200, fun name => if name = "Etag" then "abcd" else if name = "Content-Length" then "77"
      else ""⟩⟩

/-- A server that answers code 200 with the headers of an encrypted object. -/
def envCrypted : RemoteEnv :=
  ⟨sampleFromString, sampleAtoll, fun _ =>
    ⟨200, fun name => if name = "Etag" then "ffff" else if name = "Content-Length" then "1234"
      else if name = metaUncryptedMd5 then "abcd" else if name = metaUncryptedLen then "77"
      else ""⟩⟩

/-- A folder with no children; destination digest not computed, not flagged as encrypted. -/
def folderEmpty : CAsset :=
  ⟨"/src/empty", "empty", true, 0, notComputedHash, notComputedHash, false⟩

/-- A listing that holds an object named like the folder `folderEmpty` (a directory marker). -/
def lsWithFolder : CRemoteLs := ⟨["b.txt", "empty"]⟩

/-- The file `fileA` after a failed local digest: source digest not computed. -/
def fileF1 : CAsset :=
  ⟨"/src/a.txt", "a.txt", false, 0, notComputedHash, notComputedHash, false⟩

/-! ## Theorems -/

/-- Scanning past a prefix of assets that are not eligible (files present on the remote whose
destination digest is not computed) and whose source digest is computed: the prefix stays in the
queue and the scan continues behind it. -/
theorem getNextLoop_append (asserts : Bool) (ls : CRemoteLs) (pre rest : List CAsset)
    (hpre : ∀ a ∈ pre, eligible ls a = false)
    (hsrc : ∀ a ∈ pre, a.srcHash._computed = true) (re : Bool) :
    ∃ re1, getNextLoop asserts ls re (pre ++ rest) =
      match getNextLoop asserts ls re1 rest with
      | .ok r => .ok ⟨r.asset, pre ++ r.queue, r.remoteExists⟩
      | .assertFailed => .assertFailed := by
  induction pre generalizing re with
  | nil =>
    refine ⟨re, ?_⟩
    cases h : getNextLoop asserts ls re rest <;> simp [h]
  | cons a pre ih =>
    have ha := hpre a (by simp)
    have hs := hsrc a (by simp)
    simp only [eligible, Bool.or_eq_false_iff, Bool.not_eq_false_eq_eq_true] at ha
    obtain ⟨re1, h1⟩ := ih (fun b hb => hpre b (by simp [hb])) (fun b hb => hsrc b (by simp [hb]))
      (ls.existsPath a.relativePath)
    refine ⟨re1, ?_⟩
    rw [ha.1.2] at h1
    simp only [List.cons_append, getNextLoop, CAsset.isFolder, CAsset.getSrcHash,
      CAsset.getRelativePath, CAsset.getDstHash, ha.1.1, ha.1.2, ha.2, hs]
    cases h : getNextLoop asserts ls re1 rest <;> simp [h1, h]

/-- An eligible asset at the iterator position is erased and returned, whatever follows it. -/
theorem getNextLoop_eligible (asserts : Bool) (ls : CRemoteLs) (p : CAsset) (post : List CAsset)
    (hp : eligible ls p = true) (hsrc : p.folder = false → p.srcHash._computed = true)
    (re : Bool) :
    ∃ re1, getNextLoop asserts ls re (p :: post) = .ok ⟨some p, post, re1⟩ := by
  simp only [eligible, Bool.or_eq_true, Bool.not_eq_true_eq_eq_false] at hp
  by_cases hf : p.folder = true
  · exact ⟨re, by simp [getNextLoop, CAsset.isFolder, hf]⟩
  · have hf0 : p.folder = false := by simpa using hf
    have hs := hsrc hf0
    rcases hp with (hp | hp) | hp
    · exact absurd hp hf
    · exact ⟨false, by simp [getNextLoop, CAsset.isFolder, CAsset.getSrcHash,
        CAsset.getRelativePath, hf0, hs, hp]⟩
    · by_cases he : ls.existsPath p.relativePath = true
      · exact ⟨true, by simp [getNextLoop, CAsset.isFolder, CAsset.getSrcHash,
          CAsset.getRelativePath, CAsset.getDstHash, hf0, hs, hp, he]⟩
      · have he0 : ls.existsPath p.relativePath = false := by simpa using he
        exact ⟨false, by simp [getNextLoop, CAsset.isFolder, CAsset.getSrcHash,
          CAsset.getRelativePath, hf0, hs, he0]⟩

/-- C1: `CSynchronizer::getNext` takes the first eligible element. For every local-done queue in
which every file has a computed source digest, every listing and either build mode: if the queue
is `pre ++ p :: post` with no eligible asset in `pre` and `p` eligible (so `p` is the first
eligible asset in queue order), `getNext` returns `p` and leaves `pre ++ post`, the queue with
that one occurrence removed and the order of the others unchanged; if no asset of the queue is
eligible (the empty queue included), `getNext` returns null and leaves the queue as it was. -/
theorem getNext_takes_first_eligible (asserts : Bool) (ls : CRemoteLs) (q : List CAsset)
    (hsrc : ∀ a ∈ q, a.folder = false → a.srcHash._computed = true) :
    (∀ pre p post, q = pre ++ p :: post → (∀ a ∈ pre, eligible ls a = false) →
        eligible ls p = true →
        ∃ re, getNext asserts ls q = .ok ⟨some p, pre ++ post, re⟩) ∧
    ((∀ a ∈ q, eligible ls a = false) → ∃ re, getNext asserts ls q = .ok ⟨none, q, re⟩) := by
  have hfile : ∀ l : List CAsset, (∀ a ∈ l, eligible ls a = false) → ∀ a ∈ l, a.folder = false := by
    intro l hl a ha
    have := hl a ha
    simp only [eligible, Bool.or_eq_false_iff] at this
    exact this.1.1
  constructor
  · intro pre p post hq hpre hp
    subst hq
    have hpre_src : ∀ a ∈ pre, a.srcHash._computed = true := fun a ha =>
      hsrc a (by simp [ha]) (hfile pre hpre a ha)
    obtain ⟨re1, h1⟩ := getNextLoop_append asserts ls pre (p :: post) hpre hpre_src false
    obtain ⟨re2, h2⟩ := getNextLoop_eligible asserts ls p post hp (hsrc p (by simp)) re1
    exact ⟨re2, by simp [getNext, h1, h2]⟩
  · intro hq
    have hq_src : ∀ a ∈ q, a.srcHash._computed = true := fun a ha =>
      hsrc a ha (hfile q hq a ha)
    obtain ⟨re1, h1⟩ := getNextLoop_append asserts ls q [] hq hq_src false
    exact ⟨re1, by simpa [getNext, getNextLoop] using h1⟩

/-- C1, at a concrete queue: two files waiting for their remote digest, then a file absent from
the remote, then a folder; the absent file is taken and the rest keeps its order. -/
theorem getNext_takes_first_eligible_witness :
    (∀ a ∈ [fileB, fileB, fileA, folderE], a.folder = false → a.srcHash._computed = true) ∧
    ∃ re, getNext true sampleLs [fileB, fileB, fileA, folderE] =
      .ok ⟨some fileA, [fileB, fileB] ++ [folderE], re⟩ :=
  ⟨by decide,
   (getNext_takes_first_eligible true sampleLs [fileB, fileB, fileA, folderE] (by decide)).1
     [fileB, fileB] fileA [folderE] rfl (by decide) (by decide)⟩

/-- What `getNext` guarantees about an asset it returns: it is a folder, or it is a file for which
`remoteExists` is the listing's answer, whose source digest is computed when assertions are
enabled, and whose destination digest is computed when the listing holds it. -/
theorem getNextLoop_returned (asserts : Bool) (ls : CRemoteLs) (q : List CAsset) (re : Bool)
    (r : GetNextResult) (p : CAsset)
    (h : getNextLoop asserts ls re q = .ok r) (hp : r.asset = some p) :
    p.folder = true ∨
      (p.folder = false ∧ r.remoteExists = ls.existsPath p.relativePath ∧
        (asserts = true → p.srcHash._computed = true) ∧
        (ls.existsPath p.relativePath = true → p.dstHash._computed = true)) := by
  induction q generalizing re r with
  | nil =>
    simp only [getNextLoop, Result.ok.injEq] at h
    subst h
    simp at hp
  | cons a rest ih =>
    simp only [getNextLoop, CAsset.isFolder, CAsset.getSrcHash, CAsset.getRelativePath,
      CAsset.getDstHash] at h
    split at h
    · rename_i hf
      simp only [Result.ok.injEq] at h
      subst h
      simp only [Option.some.injEq] at hp
      subst hp
      exact Or.inl hf
    · rename_i hf
      have hf0 : a.folder = false := by simpa using hf
      split at h
      · exact absurd h (by simp)
      · rename_i hs
        split at h
        · rename_i he
          simp only [Result.ok.injEq] at h
          subst h
          simp only [Option.some.injEq] at hp
          subst hp
          refine Or.inr ⟨hf0, rfl, ?_, ?_⟩
          · intro ha
            simpa [ha] using hs
          · intro hx
            simp [hx] at he
        · rename_i he
          split at h
          · rename_i hd
            simp only [Result.ok.injEq] at h
            subst h
            simp only [Option.some.injEq] at hp
            subst hp
            refine Or.inr ⟨hf0, rfl, ?_, fun _ => hd⟩
            intro ha
            simpa [ha] using hs
          · cases hrec : getNextLoop asserts ls (ls.existsPath a.relativePath) rest with
            | assertFailed => simp [hrec] at h
            | ok r1 =>
              simp only [hrec, Result.ok.injEq] at h
              subst h
              exact ih _ r1 hrec hp

/-- The upload statement appends one call and one log line and leaves the queues alone. -/
theorem uploadOrAbort_fields (upload : CAsset → Bool) (a : Action) (p : CAsset) (s : SyncState) :
    (uploadOrAbort upload a p s).uploads = s.uploads ++ [p] ∧
    (uploadOrAbort upload a p s).log = s.log ++ [(a, p)] ∧
    (uploadOrAbort upload a p s).ctx._localMd5DoneQueue = s.ctx._localMd5DoneQueue ∧
    (uploadOrAbort upload a p s).ctx.abortFlag = (s.ctx.abortFlag || !upload p) := by
  simp only [uploadOrAbort]
  split
  · rename_i h
    simp only [Bool.not_eq_true_eq_eq_false, Bool.not_eq_eq_eq_not, Bool.not_true] at h
    simp [CContext.abort, h]
  · rename_i h
    simp only [Bool.not_eq_true_eq_eq_false, Bool.not_eq_eq_eq_not, Bool.not_true,
      Bool.not_eq_false] at h
    simp [h]

/-- One pass of `run` when `getNext` returned the asset `p`. -/
theorem runBody_of_getNext (asserts : Bool) (ls : CRemoteLs) (upload : CAsset → Bool)
    (st : SyncState) (r : GetNextResult) (p : CAsset)
    (hnext : getNext asserts ls st.ctx._localMd5DoneQueue.items = .ok r)
    (hp : r.asset = some p) :
    runBody asserts ls upload st = runDecide asserts upload p r.remoteExists (afterGetNext st r) := by
  simp [runBody, hnext, hp, afterGetNext]

/-- The decision for a file that the listing holds and whose digests pass the assertion. -/
theorem runDecide_present (asserts : Bool) (upload : CAsset → Bool) (p : CAsset) (s : SyncState)
    (hf : p.folder = false) (hsrc : asserts = true → p.srcHash._computed = true)
    (hd : p.dstHash._computed = true) :
    runDecide asserts upload p true s =
      .ok (if p.srcHash.beq p.dstHash then { s with log := s.log ++ [(Action.skip, p)] }
           else uploadOrAbort upload Action.replace p s) := by
  have hassert : (asserts && !(p.dstHash._computed && p.srcHash._computed)) = false := by
    cases asserts
    · simp
    · simp [hd, hsrc rfl]
  simp only [runDecide, CAsset.isFolder, hf, CAsset.getSrcHash, CAsset.getDstHash, hassert]
  simp only [Bool.false_eq_true, if_false, Bool.not_true]
  split <;> rfl

/-- C2: decision table of `CSynchronizer::run` for one asset `p` returned by `getNext`, in either
build mode. The pass completes, and: a folder is logged as ignored and triggers no upload; a file
absent from the listing is logged as upload and triggers exactly one upload call, for `p`; a file
present in the listing is logged as skip with no upload call when its source and destination
digests are equal, and is logged as replace with exactly one upload call, for `p`, when they
differ, so that it is skipped if and only if the digests are equal; and two digests are equal
exactly when both are computed and both the MD5 and the length match. -/
theorem run_decision_table (asserts : Bool) (ls : CRemoteLs) (upload : CAsset → Bool)
    (st : SyncState) (r : GetNextResult) (p : CAsset)
    (hnext : getNext asserts ls st.ctx._localMd5DoneQueue.items = .ok r)
    (hp : r.asset = some p) :
    ∃ st1, runBody asserts ls upload st = .ok st1 ∧
      st1.ctx._localMd5DoneQueue.items = r.queue ∧
      (p.isFolder = true →
        st1.uploads = st.uploads ∧ st1.log = st.log ++ [(Action.ignoreFolder, p)]) ∧
      (p.isFolder = false → ls.existsPath p.getRelativePath = false →
        st1.uploads = st.uploads ++ [p] ∧ st1.log = st.log ++ [(Action.upload, p)]) ∧
      (p.isFolder = false → ls.existsPath p.getRelativePath = true →
        (p.getSrcHash.beq p.getDstHash = true →
          st1.uploads = st.uploads ∧ st1.log = st.log ++ [(Action.skip, p)]) ∧
        (p.getSrcHash.beq p.getDstHash = false →
          st1.uploads = st.uploads ++ [p] ∧ st1.log = st.log ++ [(Action.replace, p)]) ∧
        (st1.uploads = st.uploads ↔ p.getSrcHash.beq p.getDstHash = true)) ∧
      (p.getSrcHash.beq p.getDstHash = true ↔
        (p.getSrcHash._computed = true ∧ p.getDstHash._computed = true ∧
          p.getSrcHash._md5 = p.getDstHash._md5 ∧ p.getSrcHash._len = p.getDstHash._len)) := by
  have hret := getNextLoop_returned asserts ls _ false r p hnext hp
  have hbeq : (p.getSrcHash.beq p.getDstHash = true ↔
        (p.getSrcHash._computed = true ∧ p.getDstHash._computed = true ∧
          p.getSrcHash._md5 = p.getDstHash._md5 ∧ p.getSrcHash._len = p.getDstHash._len)) := by
    simp [CHash.beq, and_assoc]
  rw [runBody_of_getNext asserts ls upload st r p hnext hp]
  simp only [CAsset.isFolder, CAsset.getRelativePath, CAsset.getSrcHash, CAsset.getDstHash] at *
  have hq : (afterGetNext st r).ctx._localMd5DoneQueue.items = r.queue := rfl
  have hu0 : (afterGetNext st r).uploads = st.uploads := rfl
  have hl0 : (afterGetNext st r).log = st.log := rfl
  suffices hmain : ∃ st1, runDecide asserts upload p r.remoteExists (afterGetNext st r) = .ok st1 ∧
      st1.ctx._localMd5DoneQueue.items = r.queue ∧
      (p.folder = true →
        st1.uploads = st.uploads ∧ st1.log = st.log ++ [(Action.ignoreFolder, p)]) ∧
      (p.folder = false → ls.existsPath p.relativePath = false →
        st1.uploads = st.uploads ++ [p] ∧ st1.log = st.log ++ [(Action.upload, p)]) ∧
      (p.folder = false → ls.existsPath p.relativePath = true →
        (p.srcHash.beq p.dstHash = true →
          st1.uploads = st.uploads ∧ st1.log = st.log ++ [(Action.skip, p)]) ∧
        (p.srcHash.beq p.dstHash = false →
          st1.uploads = st.uploads ++ [p] ∧ st1.log = st.log ++ [(Action.replace, p)]) ∧
        (st1.uploads = st.uploads ↔ p.srcHash.beq p.dstHash = true)) by
    obtain ⟨st1, h1, h2, h3, h4, h5⟩ := hmain
    exact ⟨st1, h1, h2, h3, h4, h5, hbeq⟩
  rcases hret with hf | ⟨hf, hre, hsrc, hdst⟩
  · refine ⟨{ afterGetNext st r with log := st.log ++ [(Action.ignoreFolder, p)] },
      by simp [runDecide, CAsset.isFolder, hf, afterGetNext], rfl, ?_, ?_, ?_⟩
    · intro _; exact ⟨rfl, rfl⟩
    · intro h; rw [hf] at h; cases h
    · intro h; rw [hf] at h; cases h
  · by_cases he : ls.existsPath p.relativePath = true
    · have hrun := runDecide_present asserts upload p (afterGetNext st r) hf hsrc (hdst he)
      rw [hre, he, hrun]
      by_cases hb : p.srcHash.beq p.dstHash = true
      · rw [hb]
        refine ⟨_, rfl, rfl, ?_, ?_, ?_⟩
        · intro h; rw [hf] at h; cases h
        · intro _ h; cases h
        · intro _ _
          exact ⟨fun _ => ⟨rfl, rfl⟩, fun h => Bool.noConfusion h, fun _ => rfl, fun _ => rfl⟩
      · have hb0 : p.srcHash.beq p.dstHash = false := by simpa using hb
        have hu := uploadOrAbort_fields upload Action.replace p (afterGetNext st r)
        rw [hb0]
        simp only [Bool.false_eq_true, if_false]
        refine ⟨_, rfl, by rw [hu.2.2.1, hq], ?_, ?_, ?_⟩
        · intro h; rw [hf] at h; cases h
        · intro _ h; cases h
        · intro _ _
          refine ⟨fun h => (h.elim), fun _ => ?_, ?_⟩
          · rw [hu.1, hu.2.1, hu0, hl0]; exact ⟨rfl, rfl⟩
          · rw [hu.1, hu0]; simp
    · have he0 : ls.existsPath p.relativePath = false := by simpa using he
      have hu := uploadOrAbort_fields upload Action.upload p (afterGetNext st r)
      refine ⟨uploadOrAbort upload Action.upload p (afterGetNext st r),
        by simp [runDecide, CAsset.isFolder, hf, hre, he0], by rw [hu.2.2.1, hq],
        ?_, ?_, ?_⟩
      · intro h; rw [hf] at h; cases h
      · intro _ _; rw [hu.1, hu.2.1, hu0, hl0]; exact ⟨rfl, rfl⟩
      · intro _ h; rw [he0] at h; cases h

/-- C2, at a concrete pass: the queue holds a file waiting for its remote digest and then a file
whose remote digest differs; the second is returned, replaced by one upload call. -/
theorem run_decision_table_witness :
    getNext true sampleLs (syncStart [fileB, fileD] true).ctx._localMd5DoneQueue.items =
      .ok ⟨some fileD, [fileB], true⟩ ∧
    ∃ st1, runBody true sampleLs (fun _ => true) (syncStart [fileB, fileD] true) = .ok st1 ∧
      st1.uploads = [fileD] ∧ st1.log = [(Action.replace, fileD)] := by
  refine ⟨by decide, ?_⟩
  obtain ⟨st1, h1, _, _, _, h5, _⟩ :=
    run_decision_table true sampleLs (fun _ => true) (syncStart [fileB, fileD] true)
      ⟨some fileD, [fileB], true⟩ fileD (by decide) rfl
  exact ⟨st1, h1, (h5 rfl (by decide)).2.1 (by decide)⟩

/-- C3, as amended: `main` returns `EXIT_FAILURE`, which is not zero, exactly when option parsing
yields no options or the credentials cannot be obtained; it returns `EXIT_SUCCESS`, which is zero,
exactly when the options were parsed, the credentials were obtained and the stages have been
joined, whatever context the stages leave: the abort flag is not consulted. -/
theorem main_exit_code (options : Option COptions) (getCredentials : Bool)
    (stages : CContext → StagesOutcome) (context : CContext) :
    ((∃ c, main options getCredentials stages context = .returned EXIT_FAILURE c) ↔
      (options = none ∨ getCredentials = false)) ∧
    (∀ c, main options getCredentials stages context = .returned EXIT_SUCCESS c ↔
      (options ≠ none ∧ getCredentials = true ∧ stages context = .joined c)) ∧
    EXIT_FAILURE ≠ 0 ∧ EXIT_SUCCESS = 0 := by
  have hne : EXIT_SUCCESS ≠ EXIT_FAILURE := by decide
  have hne1 : EXIT_FAILURE ≠ EXIT_SUCCESS := by decide
  refine ⟨?_, ?_, by decide, rfl⟩
  · cases options with
    | none => simp [main]
    | some o =>
      cases getCredentials with
      | false => simp [main]
      | true =>
        simp only [main, Option.isNone_some, Bool.false_eq_true, if_false, Bool.not_true]
        cases stages context <;> simp [hne]
  · intro c
    cases options with
    | none => simp [main, hne1]
    | some o =>
      cases getCredentials with
      | false => simp [main, hne1]
      | true =>
        simp only [main, Option.isNone_some, Bool.false_eq_true, if_false, Bool.not_true]
        cases stages context <;> simp

/-- C3, the claim as stated fails: with options parsed and credentials obtained, a run whose
single upload fails is aborted (the abort flag is set when the worker is joined), and `main`
returns 0. -/
theorem main_returns_zero_after_abort :
    main (some sampleOptions) true (synchronizerStage true sampleLs (fun _ => false) 3)
        (syncStart [fileA] true).ctx = .returned 0 (syncStart [] true).ctx.abort ∧
      (syncStart [] true).ctx.abort.aborted = true :=
  ⟨by decide, by decide⟩

/-- Replacing the local-done queue by its own content changes nothing. -/
theorem afterGetNext_same (st : SyncState) (r : GetNextResult)
    (h : r.queue = st.ctx._localMd5DoneQueue.items) : afterGetNext st r = st := by
  obtain ⟨⟨q1, ⟨items, d⟩, q3, q4, ab⟩, u, l⟩ := st
  simp only [afterGetNext] at h ⊢
  rw [h]

/-- A pass of `run` over a queue that holds only files present on the remote whose destination
digest is not computed (source digest computed) changes nothing: no asset is removed, nothing is
uploaded, nothing is logged. -/
theorem runBody_stuck (asserts : Bool) (ls : CRemoteLs) (upload : CAsset → Bool) (st : SyncState)
    (hel : ∀ a ∈ st.ctx._localMd5DoneQueue.items, eligible ls a = false)
    (hsrc : ∀ a ∈ st.ctx._localMd5DoneQueue.items, a.srcHash._computed = true) :
    runBody asserts ls upload st = .ok st := by
  obtain ⟨re1, h1⟩ := getNextLoop_append asserts ls st.ctx._localMd5DoneQueue.items [] hel hsrc false
  simp only [List.append_nil, getNextLoop] at h1
  simp only [runBody, getNext, h1]
  rw [afterGetNext_same st _ rfl]

/-- A worker whose queue is not empty and holds only files present on the remote whose destination
digest is not computed is still in its loop after any number of iterations, in the state it
started in. -/
theorem run_stuck (asserts : Bool) (ls : CRemoteLs) (upload : CAsset → Bool) (fuel : Nat)
    (st : SyncState) (hne : st.ctx._localMd5DoneQueue.items ≠ [])
    (hab : st.ctx.abortFlag = false)
    (hel : ∀ a ∈ st.ctx._localMd5DoneQueue.items, eligible ls a = false)
    (hsrc : ∀ a ∈ st.ctx._localMd5DoneQueue.items, a.srcHash._computed = true) :
    run asserts ls upload fuel st = .running st := by
  have hcond : ((!st.ctx._localMd5DoneQueue.isEmpty) || (!st.ctx._localMd5DoneQueue.done)) = true := by
    have : st.ctx._localMd5DoneQueue.isEmpty = false := by
      simp only [CTQueue.isEmpty, List.isEmpty_eq_false]
      exact hne
    simp [this]
  induction fuel with
  | zero => simp only [run, hcond, if_true]
  | succ n ih =>
    simp only [run, hcond, if_true, runBody_stuck asserts ls upload st hel hsrc, CContext.aborted,
      hab, Bool.false_eq_true, if_false]
    exact ih

/-- A pass of `run` over a queue whose first asset is eligible removes that asset, keeps the done
flag, and keeps the abort flag unless the uploader fails on that asset. -/
theorem runBody_head_eligible (asserts : Bool) (ls : CRemoteLs) (upload : CAsset → Bool)
    (st : SyncState) (p : CAsset) (rest : List CAsset)
    (hq : st.ctx._localMd5DoneQueue.items = p :: rest)
    (hel : eligible ls p = true) (hsrc : p.folder = false → p.srcHash._computed = true) :
    ∃ st1, runBody asserts ls upload st = .ok st1 ∧
      st1.ctx._localMd5DoneQueue = ⟨rest, st.ctx._localMd5DoneQueue.doneFlag⟩ ∧
      (upload p = true → st1.ctx.abortFlag = st.ctx.abortFlag) := by
  obtain ⟨re, hnext⟩ := getNextLoop_eligible asserts ls p rest hel hsrc false
  have hnext1 : getNext asserts ls st.ctx._localMd5DoneQueue.items = .ok ⟨some p, rest, re⟩ := by
    rw [hq]; exact hnext
  have hret := getNextLoop_returned asserts ls _ false _ p hnext1 rfl
  rw [runBody_of_getNext asserts ls upload st _ p hnext1 rfl]
  have key : ∀ S : SyncState, ∃ st1, runDecide asserts upload p re S = .ok st1 ∧
      st1.ctx._localMd5DoneQueue = S.ctx._localMd5DoneQueue ∧
      (upload p = true → st1.ctx.abortFlag = S.ctx.abortFlag) := by
    intro S
    rcases hret with hf | ⟨hf, hre, hs, hd⟩
    · exact ⟨{ S with log := S.log ++ [(Action.ignoreFolder, p)] },
        by simp [runDecide, CAsset.isFolder, hf], rfl, fun _ => rfl⟩
    · simp only at hre
      subst hre
      by_cases he : ls.existsPath p.relativePath = true
      · rw [he, runDecide_present asserts upload p S hf hs (hd he)]
        by_cases hb : p.srcHash.beq p.dstHash = true
        · rw [hb]
          exact ⟨_, rfl, rfl, fun _ => rfl⟩
        · have hb0 : p.srcHash.beq p.dstHash = false := by simpa using hb
          have hu := uploadOrAbort_fields upload Action.replace p S
          rw [hb0]
          simp only [Bool.false_eq_true, if_false]
          refine ⟨_, rfl, hu.2.2.1, fun hup => ?_⟩
          rw [hu.2.2.2, hup]
          simp
      · have he0 : ls.existsPath p.relativePath = false := by simpa using he
        have hu := uploadOrAbort_fields upload Action.upload p S
        refine ⟨uploadOrAbort upload Action.upload p S,
          by simp [runDecide, CAsset.isFolder, hf, he0], hu.2.2.1, fun hup => ?_⟩
        rw [hu.2.2.2, hup]
        simp
  obtain ⟨st1, h1, h2, h3⟩ := key (afterGetNext st ⟨some p, rest, re⟩)
  exact ⟨st1, h1, h2, h3⟩

/-- Termination when no file waits for a remote digest: with the queue marked done, no abort
raised, an uploader that succeeds, and every queued asset eligible (every file's source digest
computed), the worker leaves its loop after as many iterations as the queue holds assets, with the
queue empty and no abort raised. -/
theorem run_drains_eligible_queue (asserts : Bool) (ls : CRemoteLs) (upload : CAsset → Bool)
    (hup : ∀ a, upload a = true) (q : List CAsset) :
    ∀ st : SyncState, st.ctx._localMd5DoneQueue = ⟨q, true⟩ → st.ctx.abortFlag = false →
      (∀ a ∈ q, eligible ls a = true) →
      (∀ a ∈ q, a.folder = false → a.srcHash._computed = true) →
      ∃ st1, run asserts ls upload q.length st = .exited st1 ∧
        st1.ctx._localMd5DoneQueue.items = [] ∧ st1.ctx.abortFlag = false := by
  induction q with
  | nil =>
    intro st hq hab _ _
    exact ⟨st, by simp [run, hq, CTQueue.isEmpty, CTQueue.done], by simp [hq], hab⟩
  | cons a rest ih =>
    intro st hq hab hel hsrc
    have hitems : st.ctx._localMd5DoneQueue.items = a :: rest := by rw [hq]
    obtain ⟨st1, h1, h2, h3⟩ := runBody_head_eligible asserts ls upload st a rest hitems
      (hel a (by simp)) (hsrc a (by simp))
    have hab1 : st1.ctx.abortFlag = false := by rw [h3 (hup a)]; exact hab
    have hdone : st.ctx._localMd5DoneQueue.doneFlag = true := by rw [hq]
    rw [hdone] at h2
    obtain ⟨st2, h4, h5, h6⟩ := ih st1 h2 hab1 (fun b hb => hel b (by simp [hb]))
      (fun b hb => hsrc b (by simp [hb]))
    refine ⟨st2, ?_, h5, h6⟩
    simp only [List.length_cons, run, hq, CTQueue.isEmpty, List.isEmpty_cons, Bool.not_false,
      Bool.true_or, if_true, h1, CContext.aborted, hab1, Bool.false_eq_true, if_false]
    exact h4

/-- C4, on the code: a file that the listing holds and whose HEAD request is answered with code
500 keeps its destination digest not computed (`process` returns false and leaves the asset as
it was); with that file in the local-done queue, marked done, the worker is still in its loop
after any number of iterations, in either build mode and whatever the uploader would answer: the
file is still in the queue, no upload call was made and nothing was logged. -/
theorem head_error_file_stays_queued :
    CRemoteMd5Process.process env500 sampleLs fileB = (false, fileB) ∧
    ∀ (asserts : Bool) (upload : CAsset → Bool) (fuel : Nat),
      run asserts sampleLs upload fuel (syncStart [fileB] true) =
        .running (syncStart [fileB] true) ∧
      (syncStart [fileB] true).uploads = [] ∧
      (syncStart [fileB] true).ctx._localMd5DoneQueue.items = [fileB] := by
  refine ⟨by decide, fun asserts upload fuel => ⟨?_, rfl, rfl⟩⟩
  exact run_stuck asserts sampleLs upload fuel (syncStart [fileB] true) (by decide) rfl
    (by decide) (by decide)

/-- C5, on the code: with the local-done queue holding a folder, a file whose HEAD request failed
and a file absent from the remote, the queue marked done, every destination digest final and an
uploader that always succeeds, the worker has not left its loop after any number of iterations:
the queue never empties (the file whose HEAD failed stays in it) and no abort is raised. -/
theorem worker_never_exits :
    ∀ (asserts : Bool) (fuel : Nat), ∃ st,
      run asserts sampleLs (fun _ => true) fuel (syncStart [folderE, fileB, fileA] true) =
        .running st ∧
      fileB ∈ st.ctx._localMd5DoneQueue.items ∧ st.ctx.aborted = false := by
  intro asserts fuel
  match fuel with
  | 0 => exact ⟨_, rfl, by decide, rfl⟩
  | 1 => cases asserts <;> exact ⟨_, rfl, by decide, rfl⟩
  | n + 2 =>
    refine ⟨⟨{ CContext.initial with _localMd5DoneQueue := ⟨[fileB], true⟩ },
      [fileA], [(Action.ignoreFolder, folderE), (Action.upload, fileA)]⟩, ?_, by decide, rfl⟩
    have h := run_stuck asserts sampleLs (fun _ => true) n
      ⟨{ CContext.initial with _localMd5DoneQueue := ⟨[fileB], true⟩ },
        [fileA], [(Action.ignoreFolder, folderE), (Action.upload, fileA)]⟩
      (by decide) rfl (by decide) (by decide)
    rw [← h]
    cases asserts <;> rfl

/-- Without assertions the scan steps over any prefix of assets that are not eligible, whatever
their source digests: the prefix stays in the queue and the scan continues behind it. -/
theorem getNextLoop_append_ndebug (ls : CRemoteLs) (pre rest : List CAsset)
    (hpre : ∀ a ∈ pre, eligible ls a = false) (re : Bool) :
    ∃ re1, getNextLoop false ls re (pre ++ rest) =
      match getNextLoop false ls re1 rest with
      | .ok r => .ok ⟨r.asset, pre ++ r.queue, r.remoteExists⟩
      | .assertFailed => .assertFailed := by
  induction pre generalizing re with
  | nil =>
    refine ⟨re, ?_⟩
    cases h : getNextLoop false ls re rest <;> simp [h]
  | cons a pre ih =>
    have ha := hpre a (by simp)
    simp only [eligible, Bool.or_eq_false_iff, Bool.not_eq_false_eq_eq_true] at ha
    obtain ⟨re1, h1⟩ := ih (fun b hb => hpre b (by simp [hb])) (ls.existsPath a.relativePath)
    refine ⟨re1, ?_⟩
    rw [ha.1.2] at h1
    simp only [List.cons_append, getNextLoop, CAsset.isFolder, CAsset.getSrcHash,
      CAsset.getRelativePath, CAsset.getDstHash, ha.1.1, ha.1.2, ha.2]
    cases h : getNextLoop false ls re1 rest <;> simp [h1, h]

/-- With assertions enabled, a scan that reaches a file whose source digest is not computed, past
any prefix of assets that are not eligible, fails an assertion: at that file, or at an earlier
file of the prefix whose source digest is not computed either. -/
theorem getNextLoop_assert_fails (ls : CRemoteLs) (pre : List CAsset) (p : CAsset)
    (rest : List CAsset) (hpre : ∀ a ∈ pre, eligible ls a = false)
    (hf : p.folder = false) (hs : p.srcHash._computed = false) (re : Bool) :
    getNextLoop true ls re (pre ++ p :: rest) = .assertFailed := by
  induction pre generalizing re with
  | nil => simp [getNextLoop, CAsset.isFolder, CAsset.getSrcHash, hf, hs]
  | cons a pre ih =>
    have ha := hpre a (by simp)
    simp only [eligible, Bool.or_eq_false_iff, Bool.not_eq_false_eq_eq_true] at ha
    have h1 := ih (fun b hb => hpre b (by simp [hb])) (ls.existsPath a.relativePath)
    rw [ha.1.2] at h1
    cases hc : a.srcHash._computed with
    | false =>
      simp [getNextLoop, CAsset.isFolder, CAsset.getSrcHash, ha.1.1, hc]
    | true =>
      simp [getNextLoop, CAsset.isFolder, CAsset.getSrcHash, CAsset.getRelativePath,
        CAsset.getDstHash, ha.1.1, ha.1.2, ha.2, hc, h1]

/-- What one pass of `run` does with a file of the local-done queue whose source digest is not
computed and which the scan of `getNext` reaches (no asset in front of it is eligible): in a build
with assertions enabled the pass fails an assertion of `getNext`; in a build with assertions
compiled out, if the file is absent from the listing the pass removes it, logs it as upload and
calls the uploader for it once, and if the file is in the listing with a computed destination
digest the pass removes it, logs it as replace and calls the uploader for it once. -/
theorem failed_local_digest_step (asserts : Bool) (ls : CRemoteLs) (upload : CAsset → Bool)
    (st : SyncState) (pre : List CAsset) (p : CAsset) (rest : List CAsset)
    (hq : st.ctx._localMd5DoneQueue.items = pre ++ p :: rest)
    (hpre : ∀ a ∈ pre, eligible ls a = false)
    (hf : p.isFolder = false) (hs : p.getSrcHash._computed = false) :
    (asserts = true → runBody asserts ls upload st = .assertFailed) ∧
    (asserts = false → ls.existsPath p.getRelativePath = false →
      ∃ st1, runBody asserts ls upload st = .ok st1 ∧
        st1.ctx._localMd5DoneQueue.items = pre ++ rest ∧
        st1.uploads = st.uploads ++ [p] ∧ st1.log = st.log ++ [(Action.upload, p)]) ∧
    (asserts = false → ls.existsPath p.getRelativePath = true →
      p.getDstHash._computed = true →
      ∃ st1, runBody asserts ls upload st = .ok st1 ∧
        st1.ctx._localMd5DoneQueue.items = pre ++ rest ∧
        st1.uploads = st.uploads ++ [p] ∧ st1.log = st.log ++ [(Action.replace, p)]) := by
  simp only [CAsset.isFolder, CAsset.getRelativePath, CAsset.getSrcHash, CAsset.getDstHash] at *
  refine ⟨?_, ?_, ?_⟩
  · intro ha
    subst ha
    simp [runBody, getNext, hq, getNextLoop_assert_fails ls pre p rest hpre hf hs false]
  · intro ha he
    subst ha
    obtain ⟨re1, h1⟩ := getNextLoop_append_ndebug ls pre (p :: rest) hpre false
    have h2 : getNextLoop false ls re1 (p :: rest) = .ok ⟨some p, rest, false⟩ := by
      simp [getNextLoop, CAsset.isFolder, CAsset.getSrcHash, CAsset.getRelativePath, hf, he]
    have hu := uploadOrAbort_fields upload Action.upload p
      (afterGetNext st ⟨some p, pre ++ rest, false⟩)
    refine ⟨uploadOrAbort upload Action.upload p (afterGetNext st ⟨some p, pre ++ rest, false⟩),
      ?_, by rw [hu.2.2.1]; rfl, by rw [hu.1]; rfl, by rw [hu.2.1]; rfl⟩
    simp [runBody, getNext, hq, h1, h2, CAsset.isFolder, hf, runDecide]
  · intro ha he hd
    subst ha
    obtain ⟨re1, h1⟩ := getNextLoop_append_ndebug ls pre (p :: rest) hpre false
    have h2 : getNextLoop false ls re1 (p :: rest) = .ok ⟨some p, rest, true⟩ := by
      simp [getNextLoop, CAsset.isFolder, CAsset.getSrcHash, CAsset.getRelativePath,
        CAsset.getDstHash, hf, he, hd]
    have hu := uploadOrAbort_fields upload Action.replace p
      (afterGetNext st ⟨some p, pre ++ rest, true⟩)
    refine ⟨uploadOrAbort upload Action.replace p (afterGetNext st ⟨some p, pre ++ rest, true⟩),
      ?_, by rw [hu.2.2.1]; rfl, by rw [hu.1]; rfl, by rw [hu.2.1]; rfl⟩
    simp [runBody, getNext, hq, h1, h2, CAsset.isFolder, CAsset.getSrcHash, CAsset.getDstHash,
      hf, runDecide, CHash.beq, hs]

/-- The pass at a concrete queue: behind a file waiting for its remote digest whose own local
digest failed, a file absent from the remote whose local digest failed; without assertions the
second is removed and uploaded, the first stays. -/
theorem failed_local_digest_step_witness :
    (syncStart [fileG, fileF, fileA] true).ctx._localMd5DoneQueue.items =
      [fileG] ++ fileF :: [fileA] ∧
    (∀ a ∈ [fileG], eligible sampleLs a = false) ∧
    fileF.isFolder = false ∧ fileF.getSrcHash._computed = false ∧
    ∃ st1, runBody false sampleLs (fun _ => true) (syncStart [fileG, fileF, fileA] true) =
        .ok st1 ∧
      st1.ctx._localMd5DoneQueue.items = [fileG] ++ [fileA] ∧
      st1.uploads = (syncStart [fileG, fileF, fileA] true).uploads ++ [fileF] ∧
      st1.log = (syncStart [fileG, fileF, fileA] true).log ++ [(Action.upload, fileF)] :=
  ⟨rfl, by decide, rfl, rfl,
   (failed_local_digest_step false sampleLs (fun _ => true)
      (syncStart [fileG, fileF, fileA] true) [fileG] fileF [fileA] rfl (by decide) rfl
      rfl).2.1 rfl (by decide)⟩

/-- C8, on the code: a failed local digest is not treated as upload in a build with assertions
enabled. For a file absent from the remote whose digest routine fails,
`CLocalMd5Process::process` stores a source digest that is not computed and still returns true,
so the asset is forwarded; with that asset in the local-done queue, the pass of `run` does not
complete: it stops at the assertion `assert(p->getSrcHash()._computed)` of `getNext`, and so does
the worker loop for any number of iterations, with no upload call made. In a build without
assertions the same asset is removed, logged as upload and uploaded once. -/
theorem failed_local_digest_hits_assertion :
    CLocalMd5Process.process (fun _ => ⟨false, ⟨[]⟩, 0⟩) fileA = (true, fileF1) ∧
    fileF1.isFolder = false ∧ fileF1.getSrcHash._computed = false ∧
    sampleLs.existsPath fileF1.getRelativePath = false ∧
    runBody true sampleLs (fun _ => true) (syncStart [fileF1] true) = .assertFailed ∧
    (∀ fuel, run true sampleLs (fun _ => true) (fuel + 1) (syncStart [fileF1] true) =
      .assertFailed) ∧
    runBody false sampleLs (fun _ => true) (syncStart [fileF1] true) =
      .ok ⟨(syncStart [] true).ctx, [fileF1], [(Action.upload, fileF1)]⟩ := by
  refine ⟨by decide, rfl, rfl, by decide, by decide, fun fuel => ?_, by decide⟩
  have h : runBody true sampleLs (fun _ => true) (syncStart [fileF1] true) = .assertFailed := by
    decide
  simp only [run, h]
  rfl

/-- C6: header selection of `CRemoteMd5Process::process` on a HEAD response with code 200, for an
asset without children that the listing holds. A header counts as present when the request
object returns a non-empty text for it. If `X-Object-Meta-Uncrypted-Md5` is present, the
destination digest becomes (MD5 parsed from that header, length parsed from
`X-Object-Meta-Uncrypted-Len`, computed) and the encrypted flag becomes true; if it is absent,
the destination digest becomes (MD5 parsed from `Etag`, length parsed from `Content-Length`,
computed) and the encrypted flag becomes false; in both cases `process` returns true and nothing
else of the asset changes. Consequently a plaintext answer with `Etag = m`,
`Content-Length = l` and an encrypted answer with uncrypted MD5 `m` and uncrypted length `l`
(any `Etag` and `Content-Length`) give the same destination digest. -/
theorem remote_process_header_selection (env : RemoteEnv) (ls : CRemoteLs) (p : CAsset)
    (hc : p.childCount = 0) (hex : ls.existsPath p.getRelativePath = true)
    (h200 : (env.head p.getRelativePath).getHttpResponseCode = 200) :
    ((env.head p.getRelativePath).getResponseHeaderField metaUncryptedMd5 ≠ "" →
      CRemoteMd5Process.process env ls p =
        (true, { p with
          dstHash :=
            ⟨env.fromString ((env.head p.getRelativePath).getResponseHeaderField metaUncryptedMd5),
             env.atoll ((env.head p.getRelativePath).getResponseHeaderField metaUncryptedLen),
             true⟩
          crypted := true })) ∧
    ((env.head p.getRelativePath).getResponseHeaderField metaUncryptedMd5 = "" →
      CRemoteMd5Process.process env ls p =
        (true, { p with
          dstHash :=
            ⟨env.fromString ((env.head p.getRelativePath).getResponseHeaderField "Etag"),
             env.atoll ((env.head p.getRelativePath).getResponseHeaderField "Content-Length"),
             true⟩
          crypted := false })) ∧
    (∀ (head2 : String → CRequest) (m l : String), m ≠ "" →
      (env.head p.getRelativePath).getResponseHeaderField metaUncryptedMd5 = "" →
      (env.head p.getRelativePath).getResponseHeaderField "Etag" = m →
      (env.head p.getRelativePath).getResponseHeaderField "Content-Length" = l →
      (head2 p.getRelativePath).getHttpResponseCode = 200 →
      (head2 p.getRelativePath).getResponseHeaderField metaUncryptedMd5 = m →
      (head2 p.getRelativePath).getResponseHeaderField metaUncryptedLen = l →
      (CRemoteMd5Process.process env ls p).2.getDstHash =
        (CRemoteMd5Process.process ⟨env.fromString, env.atoll, head2⟩ ls p).2.getDstHash ∧
      (CRemoteMd5Process.process env ls p).2.getDstHash = ⟨env.fromString m, env.atoll l, true⟩) := by
  refine ⟨?_, ?_, ?_⟩
  · intro hne
    simp [CRemoteMd5Process.process, hc, hex, h200, hne, CAsset.setDstHash, CAsset.setCrypted]
  · intro he
    simp [CRemoteMd5Process.process, hc, hex, h200, he, CAsset.setDstHash, CAsset.setCrypted]
  · intro head2 m l hm he hetag hlen h200b hm2 hl2
    simp [CRemoteMd5Process.process, hc, hex, h200, he, hetag, hlen, h200b, hm2, hl2, hm,
      CAsset.setDstHash, CAsset.setCrypted, CAsset.getDstHash]

/-- C6, at concrete answers: a plaintext object and an encrypted object with the same plaintext
MD5 text and length text. -/
theorem remote_process_header_selection_witness :
    fileB.childCount = 0 ∧ sampleLs.existsPath fileB.getRelativePath = true ∧
    (envPlain.head fileB.getRelativePath).getHttpResponseCode = 200 ∧
    (CRemoteMd5Process.process envPlain sampleLs fileB).2.getDstHash =
      (CRemoteMd5Process.process envCrypted sampleLs fileB).2.getDstHash :=
  ⟨rfl, by decide, rfl,
   ((remote_process_header_selection envPlain sampleLs fileB rfl (by decide) rfl).2.2
      envCrypted.head "abcd" "77" (by decide) (by decide) (by decide) (by decide) rfl
      (by decide) (by decide)).1⟩

/-- C7: `CLocalMd5Process::process` forwards every asset and only touches files. It returns true
for every asset; a folder is left as it was; for a file the source digest becomes the MD5 and
length the digest routine delivered with `computed = true` when the routine succeeded, and a
record with `computed = false` when it failed; the destination digest, the encrypted flag and
every other attribute of the asset are never modified. -/
theorem local_process_forwards (computeFileMd5 : String → Md5Outcome) (p : CAsset) :
    (CLocalMd5Process.process computeFileMd5 p).1 = true ∧
    (p.isFolder = true → (CLocalMd5Process.process computeFileMd5 p).2 = p) ∧
    (p.isFolder = false → (computeFileMd5 p.getFullPath).ok = true →
      (CLocalMd5Process.process computeFileMd5 p).2.getSrcHash =
        ⟨(computeFileMd5 p.getFullPath).md5, (computeFileMd5 p.getFullPath).len, true⟩) ∧
    (p.isFolder = false → (computeFileMd5 p.getFullPath).ok = false →
      (CLocalMd5Process.process computeFileMd5 p).2.getSrcHash._computed = false) ∧
    (CLocalMd5Process.process computeFileMd5 p).2.getDstHash = p.getDstHash ∧
    (CLocalMd5Process.process computeFileMd5 p).2.crypted = p.crypted ∧
    (CLocalMd5Process.process computeFileMd5 p).2 =
      { p with srcHash := (CLocalMd5Process.process computeFileMd5 p).2.srcHash } := by
  cases hf : p.isFolder <;>
    simp [CLocalMd5Process.process, hf, CAsset.setSrcHash, CAsset.getSrcHash, CAsset.getDstHash]

/-- The hook `onNewAsset`, repeated over a list of assets, appends the list to both input queues
and changes nothing else. -/
theorem foldl_onNewAsset (ctx : CContext) (assets : List CAsset) :
    assets.foldl onNewAsset ctx =
      { ctx with
        _localMd5Queue := { ctx._localMd5Queue with items := ctx._localMd5Queue.items ++ assets }
        _remoteMd5Queue :=
          { ctx._remoteMd5Queue with items := ctx._remoteMd5Queue.items ++ assets } } := by
  induction assets generalizing ctx with
  | nil => simp
  | cons a rest ih => simp [List.foldl, ih, onNewAsset, CTQueue.add]

/-- C9: the parser hooks keep the two input queues in lockstep. For every context and every
sequence of reported assets (files and folders), after `onStart`, one `onNewAsset` per asset and
`onDone`, the local queue and the remote queue each hold what they held before followed by exactly
that sequence, in the same order; `onStart` clears the done flag of both queues and `onDone` sets
the done flag of both queues; the two done queues and the abort flag are not touched. -/
theorem parser_hooks_lockstep (ctx : CContext) (assets : List CAsset) :
    (parse ctx assets)._localMd5Queue.items = ctx._localMd5Queue.items ++ assets ∧
    (parse ctx assets)._remoteMd5Queue.items = ctx._remoteMd5Queue.items ++ assets ∧
    (onStart ctx)._localMd5Queue.done = false ∧ (onStart ctx)._remoteMd5Queue.done = false ∧
    (assets.foldl onNewAsset (onStart ctx))._localMd5Queue.done = false ∧
    (assets.foldl onNewAsset (onStart ctx))._remoteMd5Queue.done = false ∧
    (onDone ctx)._localMd5Queue.done = true ∧ (onDone ctx)._remoteMd5Queue.done = true ∧
    (parse ctx assets)._localMd5Queue.done = true ∧
    (parse ctx assets)._remoteMd5Queue.done = true ∧
    (parse ctx assets)._localMd5DoneQueue = ctx._localMd5DoneQueue ∧
    (parse ctx assets)._remoteMd5DoneQueue = ctx._remoteMd5DoneQueue ∧
    (parse ctx assets).abortFlag = ctx.abortFlag := by
  simp [parse, foldl_onNewAsset, onStart, onDone, CTQueue.setDone, CTQueue.resetDone,
    CTQueue.done]

/-- The empty file has no entry to add. -/
theorem specAdded_nil : specAdded [] = ∅ := by
  simp [specAdded, specLines, trim_copy]

/-- A content without delimiter is one line. -/
theorem specAdded_single (l : List Char) (h : ∀ c ∈ l, c ≠ newline) :
    specAdded l = if trim_copy l = [] then ∅ else {trim_copy l} := by
  have : l.splitOn newline = [l] := by
    unfold List.splitOn
    exact List.splitOnP_eq_single _ _ (by simpa using h)
  simp only [specAdded, specLines, this, List.map_cons, List.map_nil]
  by_cases ht : trim_copy l = [] <;> simp [List.filter, ht]

/-- A content that starts with a line and its delimiter: that line, then the lines of the rest. -/
theorem specAdded_line (l rest : List Char) (h : ∀ c ∈ l, c ≠ newline) :
    specAdded (l ++ newline :: rest) =
      (if trim_copy l = [] then ∅ else {trim_copy l}) ∪ specAdded rest := by
  have : (l ++ newline :: rest).splitOn newline = l :: rest.splitOn newline := by
    unfold List.splitOn
    exact List.splitOnP_first _ _ (by simpa using h) newline (by simp) rest
  simp only [specAdded, specLines, this, List.map_cons]
  by_cases ht : trim_copy l = []
  · simp [List.filter, ht]
  · simp [List.filter, ht]
    rfl

/-- A call of `getline` on a non-empty rest of the stream delivers a line without delimiter, and
the stream was that line alone or that line, a delimiter and what is left. -/
theorem getline_split (c : Char) (cs : List Char) :
    ∃ line rest, getline (c :: cs) = some (line, rest) ∧ (∀ d ∈ line, d ≠ newline) ∧
      ((c :: cs = line ∧ rest = []) ∨ c :: cs = line ++ newline :: rest) := by
  refine ⟨_, _, rfl, ?_, ?_⟩
  · intro d hd
    simpa using List.mem_takeWhile_imp hd
  · have happ := List.takeWhile_append_dropWhile (fun d => d != newline) (c :: cs)
    cases hdw : List.dropWhile (fun d => d != newline) (c :: cs) with
    | nil =>
      left
      rw [hdw, List.append_nil] at happ
      exact ⟨happ.symm, rfl⟩
    | cons e es =>
      right
      have hne : List.dropWhile (fun d => d != newline) (c :: cs) ≠ [] := by simp [hdw]
      have hhead := List.head_dropWhile_not (fun d => d != newline) (c :: cs) hne
      simp only [hdw, List.head_cons, bne_eq_false_iff_eq] at hhead
      rw [hdw, hhead] at happ
      simp only [List.drop_one, List.tail_cons]
      exact happ.symm

/-- The loop, given more calls than the stream has characters left, adds to `x` the set the
specification describes. -/
theorem loadExcludesLoop_eq (fuel : Nat) :
    ∀ (f : List Char) (x : Finset (List Char)), f.length < fuel →
      loadExcludesLoop fuel x f = x ∪ specAdded f := by
  induction fuel with
  | zero => intro f x h; exact absurd h (Nat.not_lt_zero _)
  | succ n ih =>
    intro f x hlen
    cases f with
    | nil => simp [loadExcludesLoop, getline, specAdded_nil]
    | cons c cs =>
      obtain ⟨line, rest, hg, hno, hsplit⟩ := getline_split c cs
      have hstep : loadExcludesLoop (n + 1) x (c :: cs) =
          loadExcludesLoop n (if trim_copy line = [] then x else insert (trim_copy line) x)
            rest := by
        simp only [loadExcludesLoop, hg, List.isEmpty_iff]
        split <;> rfl
      rw [hstep]
      rcases hsplit with ⟨hl, hr⟩ | hl
      · subst hr
        have hnil : ∀ y : Finset (List Char), loadExcludesLoop n y [] = y := by
          intro y
          cases n <;> simp [loadExcludesLoop, getline]
        rw [hnil, hl, specAdded_single line hno]
        by_cases ht : trim_copy line = [] <;> simp [ht, Finset.insert_eq, Finset.union_comm]
      · have hlt : rest.length < n := by
          have : (c :: cs).length = line.length + (rest.length + 1) := by
            rw [hl]; simp
          omega
        rw [ih rest _ hlt, hl, specAdded_line line rest hno]
        by_cases ht : trim_copy line = []
        · simp [ht]
        · simp only [ht, if_false, Finset.insert_eq]
          rw [Finset.union_assoc]
          exact Finset.union_left_comm {trim_copy line} x (specAdded rest)

/-- A trimmed text does not start with white space. -/
theorem trim_copy_head (s : List Char) (c : Char) (h : (trim_copy s).head? = some c) :
    isspace c = false := by
  have hne : trim_copy s ≠ [] := by
    intro h0; rw [h0] at h; simp at h
  have := List.head_dropWhile_not isspace (s.rdropWhile isspace) hne
  rw [List.head?_eq_head hne] at h
  simp only [Option.some.injEq] at h
  rw [← h]
  exact this

/-- A trimmed text does not end with white space. -/
theorem trim_copy_getLast (s : List Char) (c : Char) (h : (trim_copy s).getLast? = some c) :
    isspace c = false := by
  have hne : trim_copy s ≠ [] := by
    intro h0; rw [h0] at h; simp at h
  have hsuf : trim_copy s <:+ s.rdropWhile isspace := List.dropWhile_suffix _
  have hne2 : s.rdropWhile isspace ≠ [] := by
    intro h0
    rw [h0] at hsuf
    exact hne (List.eq_nil_of_suffix_nil hsuf)
  have hlast := hsuf.getLast hne
  have hnot := List.rdropWhile_last_not isspace s hne2
  rw [List.getLast?_eq_getLast _ hne] at h
  simp only [Option.some.injEq] at h
  rw [← h, hlast]
  simpa using hnot

/-- A text of white space only trims to the empty text. -/
theorem trim_copy_blank (s : List Char) (h : ∀ c ∈ s, isspace c = true) : trim_copy s = [] := by
  have : s.rdropWhile isspace = [] := List.rdropWhile_eq_nil_iff.mpr h
  simp [trim_copy, this]

/-- C10: exclude file reading. For every content of a file that is read without error and every
initial set `x`, `loadExcludes` leaves `x` united with `{ trim(l) : l is a line of the file and
trim(l) is not empty }`; an entry is added exactly when it is not empty and is the trimmed form of
some line; the empty text is never added; no added entry starts or ends with white space; a line
of white space only (a blank line included) contributes nothing; and reading the same lines again
adds nothing, so duplicate lines contribute one entry. -/
theorem loadExcludes_adds_trimmed_lines (x : Finset (List Char)) (content : List Char) :
    loadExcludes x (.opened content false) = .ok (x ∪ specAdded content) ∧
    (∀ e, e ∈ specAdded content ↔ (e ≠ [] ∧ ∃ l ∈ specLines content, trim_copy l = e)) ∧
    [] ∉ specAdded content ∧
    (∀ e ∈ specAdded content, ∀ c, (e.head? = some c ∨ e.getLast? = some c) →
      isspace c = false) ∧
    (∀ l ∈ specLines content, (∀ c ∈ l, isspace c = true) → trim_copy l ∉ specAdded content) ∧
    loadExcludes (x ∪ specAdded content) (.opened content false) =
      .ok (x ∪ specAdded content) := by
  have hmem : ∀ e, e ∈ specAdded content ↔ (e ≠ [] ∧ ∃ l ∈ specLines content, trim_copy l = e) := by
    intro e
    simp only [specAdded, List.mem_toFinset, List.mem_filter, List.mem_map, decide_eq_true_eq]
    exact and_comm
  have hnil : [] ∉ specAdded content := fun h => ((hmem []).mp h).1 rfl
  refine ⟨?_, hmem, hnil, ?_, ?_, ?_⟩
  · simp [loadExcludes, loadExcludesLoop_eq (content.length + 1) content x (Nat.lt_succ_self _)]
  · intro e he c hc
    obtain ⟨_, l, _, hl⟩ := (hmem e).mp he
    subst hl
    rcases hc with hc | hc
    · exact trim_copy_head l c hc
    · exact trim_copy_getLast l c hc
  · intro l _ hblank
    rw [trim_copy_blank l hblank]
    exact hnil
  · simp [loadExcludes, loadExcludesLoop_eq (content.length + 1) content _ (Nat.lt_succ_self _),
      Finset.union_assoc]

/-- C10 at a concrete file: five lines, with a duplicate, a blank line and a line of white space;
the last line has no delimiter. -/
theorem loadExcludes_sample :
    loadExcludes {"old".toList}
        (.opened "a\n  b c \t\n\n \t\r\na\nlast".toList false) =
      .ok {"old".toList, "a".toList, "b c".toList, "last".toList} :=
  congrArg Except.ok
    (by decide : loadExcludesLoop ("a\n  b c \t\n\n \t\r\na\nlast".toList.length + 1)
        {"old".toList} "a\n  b c \t\n\n \t\r\na\nlast".toList =
      {"old".toList, "a".toList, "b c".toList, "last".toList})

/-- The part of the frame of `CRemoteMd5Process::process` that holds: the asset is left exactly as
it was when it has children, when the listing does not hold its relative path, and when the HEAD
response code is not 200; and whatever happens, only the destination digest and the encrypted
flag can change, so the source digest is never modified. -/
theorem remote_process_frame (env : RemoteEnv) (ls : CRemoteLs) (p : CAsset) :
    (p.childCount ≠ 0 → CRemoteMd5Process.process env ls p = (true, p)) ∧
    (ls.existsPath p.getRelativePath = false → CRemoteMd5Process.process env ls p = (true, p)) ∧
    (p.childCount = 0 → ls.existsPath p.getRelativePath = true →
      (env.head p.getRelativePath).getHttpResponseCode ≠ 200 →
      CRemoteMd5Process.process env ls p = (false, p)) ∧
    (CRemoteMd5Process.process env ls p).2.getSrcHash = p.getSrcHash ∧
    (CRemoteMd5Process.process env ls p).2 =
      { p with
        dstHash := (CRemoteMd5Process.process env ls p).2.dstHash
        crypted := (CRemoteMd5Process.process env ls p).2.crypted } := by
  refine ⟨?_, ?_, ?_, ?_, ?_⟩
  · intro h
    simp [CRemoteMd5Process.process, h]
  · intro h
    simp [CRemoteMd5Process.process, h]
  · intro hc he h
    simp [CRemoteMd5Process.process, hc, he, h]
  · simp only [CRemoteMd5Process.process]
    split_ifs <;> rfl
  · simp only [CRemoteMd5Process.process]
    split_ifs <;> rfl

/-- C11, on the code: `CRemoteMd5Process::process` tests `p->childCount() == 0`, not
`p->isFolder()`. For the folder without children `folderEmpty`, whose relative path the listing
holds, a HEAD answered with code 200 gives the folder a computed destination digest; when the
answer carries the uncrypted-MD5 header the encrypted flag of the folder changes from false to
true as well. -/
theorem remote_process_touches_empty_folder :
    folderEmpty.isFolder = true ∧ folderEmpty.childCount = 0 ∧
    lsWithFolder.existsPath folderEmpty.getRelativePath = true ∧
    folderEmpty.getDstHash._computed = false ∧ folderEmpty.crypted = false ∧
    (envPlain.head folderEmpty.getRelativePath).getHttpResponseCode = 200 ∧
    (CRemoteMd5Process.process envPlain lsWithFolder folderEmpty).2.getDstHash._computed = true ∧
    (envCrypted.head folderEmpty.getRelativePath).getHttpResponseCode = 200 ∧
    (CRemoteMd5Process.process envCrypted lsWithFolder folderEmpty).2.getDstHash._computed = true ∧
    (CRemoteMd5Process.process envCrypted lsWithFolder folderEmpty).2.crypted = true := by
  decide

/-- C13: the out-parameter `remoteExists` of `CSynchronizer::getNext` is correct for every
returned file. For every queue content, listing and build mode, whenever `getNext` returns a file
`p`, `remoteExists` equals the listing's answer for the relative path of `p`, whatever was scanned
and left in the queue before `p`. For a returned folder or a null result the value can be that of
an earlier scanned file (behind a file waiting for its remote digest, a folder that the listing
does not hold is returned with `remoteExists = true`, and so is null), and `run` does not read
it then: what `run` does after `getNext` is the same for any two values of `remoteExists` when
the returned pointer is null or a folder. -/
theorem getNext_remoteExists_correct (asserts : Bool) (ls : CRemoteLs) (q : List CAsset)
    (r : GetNextResult) (p : CAsset)
    (h : getNext asserts ls q = .ok r) (hp : r.asset = some p) (hf : p.isFolder = false) :
    r.remoteExists = ls.existsPath p.getRelativePath ∧
    (getNext asserts sampleLs [fileB, folderE] = .ok ⟨some folderE, [fileB], true⟩ ∧
      sampleLs.existsPath folderE.getRelativePath = false ∧
      getNext asserts sampleLs [fileB] = .ok ⟨none, [fileB], true⟩) ∧
    (∀ (upload : CAsset → Bool) (st : SyncState) (r1 r2 : GetNextResult),
      r1.asset = r2.asset → r1.queue = r2.queue →
      (r1.asset = none ∨ ∃ f, r1.asset = some f ∧ f.isFolder = true) →
      (match r1.asset with
        | none => Result.ok (afterGetNext st r1)
        | some a => runDecide asserts upload a r1.remoteExists (afterGetNext st r1)) =
      (match r2.asset with
        | none => Result.ok (afterGetNext st r2)
        | some a => runDecide asserts upload a r2.remoteExists (afterGetNext st r2))) := by
  refine ⟨?_, ?_, ?_⟩
  · rcases getNextLoop_returned asserts ls q false r p h hp with hfold | ⟨_, hre, _, _⟩
    · simp only [CAsset.isFolder] at hf
      rw [hf] at hfold
      cases hfold
    · exact hre
  · cases asserts <;> decide
  · intro upload st r1 r2 ha hq hcase
    obtain ⟨a1, q1, b1⟩ := r1
    obtain ⟨a2, q2, b2⟩ := r2
    simp only at ha hq hcase
    subst ha
    subst hq
    rcases hcase with hnone | ⟨f, hsome, hfold⟩
    · subst hnone
      rfl
    · subst hsome
      simp [runDecide, hfold, afterGetNext]

/-- C13, at a concrete queue: behind a file waiting for its remote digest, a file absent from the
remote is returned with `remoteExists = false`. -/
theorem getNext_remoteExists_correct_witness :
    getNext true sampleLs [fileB, fileA] = .ok ⟨some fileA, [fileB], false⟩ ∧
    fileA.isFolder = false ∧
    false = sampleLs.existsPath fileA.getRelativePath :=
  ⟨by decide, rfl,
   (getNext_remoteExists_correct true sampleLs [fileB, fileA] ⟨some fileA, [fileB], false⟩ fileA
      (by decide) rfl rfl).1⟩

/-- A call of `getNext` that returns an asset was made on a queue that is not empty. -/
theorem getNext_some_nonempty (asserts : Bool) (ls : CRemoteLs) (q : List CAsset)
    (r : GetNextResult) (p : CAsset) (h : getNext asserts ls q = .ok r)
    (hp : r.asset = some p) : q ≠ [] := by
  intro hq
  subst hq
  simp only [getNext, getNextLoop, Result.ok.injEq] at h
  subst h
  simp at hp

/-- The decision block of `run` never clears the abort flag. -/
theorem runDecide_abort_mono (asserts : Bool) (upload : CAsset → Bool) (p : CAsset) (b : Bool)
    (s s1 : SyncState) (h : runDecide asserts upload p b s = .ok s1)
    (hab : s.ctx.abortFlag = true) : s1.ctx.abortFlag = true := by
  have hu : ∀ a, (uploadOrAbort upload a p s).ctx.abortFlag = true := by
    intro a
    rw [(uploadOrAbort_fields upload a p s).2.2.2, hab]
    rfl
  simp only [runDecide] at h
  split_ifs at h <;> simp only [Result.ok.injEq] at h <;> subst h
  · exact hab
  · exact hu _
  · exact hab
  · exact hu _

/-- One pass of `run` never clears the abort flag. -/
theorem runBody_abort_mono (asserts : Bool) (ls : CRemoteLs) (upload : CAsset → Bool)
    (s s1 : SyncState) (h : runBody asserts ls upload s = .ok s1)
    (hab : s.ctx.abortFlag = true) : s1.ctx.abortFlag = true := by
  simp only [runBody] at h
  cases hg : getNext asserts ls s.ctx._localMd5DoneQueue.items with
  | assertFailed => simp [hg] at h
  | ok r =>
    simp only [hg] at h
    have hS : (afterGetNext s r).ctx.abortFlag = true := hab
    cases ha : r.asset with
    | none =>
      simp only [ha, Result.ok.injEq] at h
      subst h
      exact hS
    | some a =>
      simp only [ha] at h
      exact runDecide_abort_mono asserts upload a r.remoteExists _ s1 h hS

/-- The loop of `run` never clears the abort flag, for any number of iterations. -/
theorem run_abort_mono (asserts : Bool) (ls : CRemoteLs) (upload : CAsset → Bool) (fuel : Nat) :
    ∀ s s1 : SyncState,
      (run asserts ls upload fuel s = .exited s1 ∨ run asserts ls upload fuel s = .running s1) →
      s.ctx.abortFlag = true → s1.ctx.abortFlag = true := by
  induction fuel with
  | zero =>
    intro s s1 h hab
    simp only [run] at h
    split_ifs at h <;> simp at h <;> subst h <;> exact hab
  | succ n ih =>
    intro s s1 h hab
    simp only [run] at h
    split_ifs at h
    · cases hb : runBody asserts ls upload s with
      | assertFailed => simp [hb] at h
      | ok s2 =>
        have hab2 := runBody_abort_mono asserts ls upload s s2 hb hab
        simp only [hb, CContext.aborted, hab2, if_true] at h
        simp at h
        subst h
        exact hab2
    · simp at h
      subst h
      exact hab

/-- C12: abort on upload failure in `CSynchronizer::run`. For every file `p` that `getNext`
returns and that is classified as upload (absent from the listing) or replace (digests differ),
in either build mode: the pass completes with exactly one more upload call, for `p`, logged as
upload or replace. If that call fails, the abort flag is set and the worker has left its loop
after this one iteration however many iterations it would be allowed, in the state this iteration
left: no other upload call was made and the queue is what this one call of `getNext` left, empty
or not. If the call succeeds, the abort flag is what it was before the pass. And a worker never
clears the abort flag: once set it is set after any pass and in any state the loop reaches. -/
theorem run_abort_on_upload_failure (asserts : Bool) (ls : CRemoteLs) (upload : CAsset → Bool)
    (st : SyncState) (r : GetNextResult) (p : CAsset)
    (hnext : getNext asserts ls st.ctx._localMd5DoneQueue.items = .ok r)
    (hp : r.asset = some p) (hfile : p.isFolder = false)
    (hcls : ls.existsPath p.getRelativePath = false ∨ p.getSrcHash.beq p.getDstHash = false) :
    ∃ st1, runBody asserts ls upload st = .ok st1 ∧
      st1.uploads = st.uploads ++ [p] ∧
      (st1.log = st.log ++ [(Action.upload, p)] ∨ st1.log = st.log ++ [(Action.replace, p)]) ∧
      st1.ctx._localMd5DoneQueue.items = r.queue ∧
      (upload p = false →
        st1.ctx.aborted = true ∧
        ∀ fuel, run asserts ls upload (fuel + 1) st = .exited st1) ∧
      (upload p = true → st1.ctx.aborted = st.ctx.aborted) ∧
      (∀ s s1 : SyncState, runBody asserts ls upload s = .ok s1 →
        s.ctx.aborted = true → s1.ctx.aborted = true) ∧
      (∀ (fuel : Nat) (s s1 : SyncState),
        (run asserts ls upload fuel s = .exited s1 ∨ run asserts ls upload fuel s = .running s1) →
        s.ctx.aborted = true → s1.ctx.aborted = true) := by
  simp only [CAsset.isFolder, CAsset.getRelativePath, CAsset.getSrcHash, CAsset.getDstHash,
    CContext.aborted] at *
  have hne := getNext_some_nonempty asserts ls _ r p hnext hp
  have hbody := runBody_of_getNext asserts ls upload st r p hnext hp
  have hdec : ∃ a, (a = Action.upload ∨ a = Action.replace) ∧
      runDecide asserts upload p r.remoteExists (afterGetNext st r) =
        .ok (uploadOrAbort upload a p (afterGetNext st r)) := by
    rcases getNextLoop_returned asserts ls _ false r p hnext hp with hfold | ⟨hf, hre, hs, hd⟩
    · rw [hfile] at hfold
      cases hfold
    · by_cases he : ls.existsPath p.relativePath = true
      · have hb : p.srcHash.beq p.dstHash = false := by
          rcases hcls with h | h
          · rw [he] at h
            cases h
          · exact h
        refine ⟨Action.replace, Or.inr rfl, ?_⟩
        rw [hre, he, runDecide_present asserts upload p _ hf hs (hd he), hb]
        rfl
      · have he0 : ls.existsPath p.relativePath = false := by simpa using he
        refine ⟨Action.upload, Or.inl rfl, ?_⟩
        simp [runDecide, CAsset.isFolder, hf, hre, he0]
  obtain ⟨a, ha, hrun⟩ := hdec
  rw [hrun] at hbody
  have hu := uploadOrAbort_fields upload a p (afterGetNext st r)
  have hab : (uploadOrAbort upload a p (afterGetNext st r)).ctx.abortFlag =
      (st.ctx.abortFlag || !upload p) := hu.2.2.2
  refine ⟨uploadOrAbort upload a p (afterGetNext st r), hbody, hu.1, ?_, ?_, ?_, ?_,
    fun s s1 h hs => runBody_abort_mono asserts ls upload s s1 h hs,
    fun fuel s s1 h hs => run_abort_mono asserts ls upload fuel s s1 h hs⟩
  · rcases ha with ha | ha <;> subst ha
    · exact Or.inl hu.2.1
    · exact Or.inr hu.2.1
  · rw [hu.2.2.1]
    rfl
  · intro hfail
    have habt : (uploadOrAbort upload a p (afterGetNext st r)).ctx.abortFlag = true := by
      rw [hab, hfail]
      simp
    refine ⟨habt, fun fuel => ?_⟩
    have hcond : ((!st.ctx._localMd5DoneQueue.isEmpty) || (!st.ctx._localMd5DoneQueue.done)) =
        true := by
      have : st.ctx._localMd5DoneQueue.isEmpty = false := by
        simp only [CTQueue.isEmpty, List.isEmpty_eq_false]
        exact hne
      simp [this]
    simp only [run, hcond, if_true, hbody, CContext.aborted, habt]
  · intro hok
    rw [hab, hok]
    simp

/-- C12, at a concrete pass: the queue holds a file absent from the remote and then a file to
replace; the upload of the first fails, the worker leaves its loop with the second file still
queued and only one upload call made. -/
theorem run_abort_on_upload_failure_witness :
    getNext true sampleLs (syncStart [fileA, fileD] true).ctx._localMd5DoneQueue.items =
      .ok ⟨some fileA, [fileD], false⟩ ∧
    fileA.isFolder = false ∧
    (sampleLs.existsPath fileA.getRelativePath = false ∨
      fileA.getSrcHash.beq fileA.getDstHash = false) ∧
    ∃ st1, run true sampleLs (fun _ => false) 5 (syncStart [fileA, fileD] true) = .exited st1 ∧
      st1.uploads = [fileA] ∧ st1.ctx._localMd5DoneQueue.items = [fileD] ∧
      st1.ctx.aborted = true := by
  refine ⟨by decide, rfl, Or.inl (by decide), ?_⟩
  obtain ⟨st1, _, h2, _, h4, h5, _⟩ :=
    run_abort_on_upload_failure true sampleLs (fun _ => false) (syncStart [fileA, fileD] true)
      ⟨some fileA, [fileD], false⟩ fileA (by decide) rfl rfl (Or.inl (by decide))
  exact ⟨st1, (h5 rfl).2 4, h2, h4, (h5 rfl).1⟩

end HubicBackup
